import Mathlib

/-!
Verification of the transaction-processing core.

This file gives a shallow embedding of the per-account state machine of the
repository (model/amount.rs, model/account.rs, engine/state.rs and the
sequential routing behaviour of engine/handler.rs and engine/server.rs) and
proves or refutes the stated properties.

Modelling notes.
* `Amount` (a thin wrapper over `rust_decimal::Decimal`) is embedded as `Int`
  together with the representable range `[-amountMax, amountMax]`
  (`Decimal::MIN = -Decimal::MAX`).  `checked_add` / `checked_sub` return
  `none` exactly when the mathematical result leaves the representable range,
  matching the wrapper's documented contract ("no round-off errors ...
  checked mathematical operations which handle overflow and underflow").
* Rust mutators taking `&mut self` and returning `Result<()>` are embedded in
  state-passing style as functions returning `Account × Option Error`
  (respectively `State × Option Error`): the first component is the final
  value of `self` / `state`, the second is `none` on `Ok(())` and
  `some e` on `Err(e)`.  This keeps partial mutations on error paths
  observable (`Account::deposit` assigns `available` before the checked add
  on `total`).
* `HashMap<TransactionId, Transaction>` is embedded as an association list
  with `insert` replacing any binding of the same key, matching
  `HashMap::insert`.
-/

namespace TxProc

/-- The constant `Decimal::MAX` = 2^96 - 1 (scale 0); `Decimal::MIN` is its
negation. -/
def amountMax : Int := 79228162514264337593543950335

/-- Monetary amounts: the value of an `Amount` (model/amount.rs). -/
abbrev Amount := Int

/-- Source `Amount::checked_add`: `none` iff the result leaves the representable
range. -/
def checkedAdd (a b : Amount) : Option Amount :=
  if -amountMax ≤ a + b ∧ a + b ≤ amountMax then some (a + b) else none

/-- Source `Amount::checked_sub`: `none` iff the result leaves the representable
range. -/
def checkedSub (a b : Amount) : Option Amount :=
  if -amountMax ≤ a - b ∧ a - b ≤ amountMax then some (a - b) else none

/-- The error type `model::account::Error`. -/
inductive AccountError where
  | Overflow
  | Locked
  | InsufficientFunds
  | InvalidInput
deriving DecidableEq, Repr

/-- The record `model::account::Account`. -/
structure Account where
  id : Nat
  available : Amount
  held : Amount
  total : Amount
  locked : Bool
deriving DecidableEq, Repr

/-- Source `Account::new`. -/
def Account.new (id : Nat) : Account :=
  { id := id, available := 0, held := 0, total := 0, locked := false }

/-- Source `Account::deposit`.  Note the source order: `self.available` is assigned
from the first checked add before the checked add on `self.total` runs, so a
failure of the second add leaves `available` already updated. -/
def Account.deposit (self : Account) (amount : Amount) :
    Account × Option AccountError :=
  if amount ≤ 0 then (self, some .InvalidInput)
  else if self.locked then (self, some .Locked)
  else
    match checkedAdd self.available amount with
    | none => (self, some .Overflow)
    | some av =>
      match checkedAdd self.total amount with
      | none => ({ self with available := av }, some .Overflow)
      | some t => ({ self with available := av, total := t }, none)

/-- Source `Account::dispute`. -/
def Account.dispute (self : Account) (amount : Amount) :
    Account × Option AccountError :=
  if amount ≤ 0 then (self, some .InvalidInput)
  else if self.locked then (self, some .Locked)
  else
    match checkedSub self.available amount with
    | none => (self, some .Overflow)
    | some availDiff =>
      if availDiff < 0 then (self, some .InsufficientFunds)
      else
        match checkedAdd self.held amount with
        | none => (self, some .Overflow)
        | some h => ({ self with held := h, available := availDiff }, none)

/-- Source `Account::withdrawal`. -/
def Account.withdrawal (self : Account) (amount : Amount) :
    Account × Option AccountError :=
  if amount ≤ 0 then (self, some .InvalidInput)
  else if self.locked then (self, some .Locked)
  else
    match checkedSub self.available amount with
    | none => (self, some .Overflow)
    | some availDiff =>
      if availDiff < 0 then (self, some .InsufficientFunds)
      else
        match checkedSub self.total amount with
        | none => (self, some .Overflow)
        | some totalDiff =>
          if totalDiff < 0 then (self, some .InsufficientFunds)
          else ({ self with available := availDiff, total := totalDiff }, none)

/-- Source `Account::resolve`. -/
def Account.resolve (self : Account) (amount : Amount) :
    Account × Option AccountError :=
  if amount ≤ 0 then (self, some .InvalidInput)
  else if self.locked then (self, some .Locked)
  else
    match checkedSub self.held amount with
    | none => (self, some .Overflow)
    | some heldDiff =>
      if heldDiff < 0 then (self, some .InsufficientFunds)
      else
        match checkedAdd self.available amount with
        | none => (self, some .Overflow)
        | some av => ({ self with available := av, held := heldDiff }, none)

/-- Source `Account::charge_back`. -/
def Account.charge_back (self : Account) (amount : Amount) :
    Account × Option AccountError :=
  if amount ≤ 0 then (self, some .InvalidInput)
  else if self.locked then (self, some .Locked)
  else
    match checkedSub self.held amount with
    | none => (self, some .Overflow)
    | some heldDiff =>
      if heldDiff < 0 then (self, some .InsufficientFunds)
      else
        match checkedSub self.total amount with
        | none => (self, some .Overflow)
        | some totalDiff =>
          if totalDiff < 0 then (self, some .InsufficientFunds)
          else
            ({ self with held := heldDiff, total := totalDiff, locked := true },
             none)

/-- The pair `engine::state::TransactionMetadata` (tuple struct `(TransactionId,
AccountId)`). -/
structure TransactionMetadata where
  txId : Nat
  clientId : Nat
deriving DecidableEq, Repr

/-- The variant type `engine::state::Transaction`. -/
inductive Transaction where
  | Deposit (md : TransactionMetadata) (amount : Amount) (disputed : Bool)
  | Withdrawal (md : TransactionMetadata) (amount : Amount)
  | Dispute (md : TransactionMetadata)
  | Resolve (md : TransactionMetadata)
  | ChargeBack (md : TransactionMetadata)
deriving DecidableEq, Repr

/-- The error type `engine::state::Error`. -/
inductive TxError where
  | Account (e : AccountError)
  | Deposit
  | Withdrawal
  | Dispute
  | Resolve
  | ChargeBack
  | DuplicateTransactionId
  | InvalidAccountId
deriving DecidableEq, Repr

/-- The transaction id carried in a transaction's metadata (`md.0`). -/
def Transaction.txId : Transaction → Nat
  | .Deposit md _ _ => md.txId
  | .Withdrawal md _ => md.txId
  | .Dispute md => md.txId
  | .Resolve md => md.txId
  | .ChargeBack md => md.txId

/-- The client id carried in a transaction's metadata (`md.1`). -/
def Transaction.client : Transaction → Nat
  | .Deposit md _ _ => md.clientId
  | .Withdrawal md _ => md.clientId
  | .Dispute md => md.clientId
  | .Resolve md => md.clientId
  | .ChargeBack md => md.clientId

/-- Whether a transaction is a `Deposit` variant. -/
def Transaction.isDeposit : Transaction → Bool
  | .Deposit _ _ _ => true
  | _ => false

/-- The transaction history: `HashMap<TransactionId, Transaction>` embedded
as an association list. -/
abbrev History := List (Nat × Transaction)

/-- Lookup in the history (`HashMap::get`). -/
def hfind (h : History) (k : Nat) : Option Transaction :=
  match h with
  | [] => none
  | (k1, t) :: rest => if k1 = k then some t else hfind rest k

/-- Drop every binding of key `k` (helper for `hinsert`). -/
def hremove (h : History) (k : Nat) : History :=
  match h with
  | [] => []
  | (k1, t) :: rest =>
    if k1 = k then hremove rest k else (k1, t) :: hremove rest k

/-- Source `HashMap::insert`: binds `k` to `t`, replacing any previous
binding. -/
def hinsert (h : History) (k : Nat) (t : Transaction) : History :=
  (k, t) :: hremove h k

/-- The record `engine::state::State`. -/
structure State where
  account : Account
  transaction_history : History
deriving DecidableEq, Repr

/-- Source `State::new`. -/
def State.new (id : Nat) : State :=
  { account := Account.new id, transaction_history := [] }

/-- Source `Transaction::deposit` (the private helper dispatched to by
`apply`). -/
def Transaction.applyDeposit (t : Transaction) (s : State) :
    State × Option TxError :=
  match t with
  | .Deposit md amount _ =>
    if s.account.id ≠ md.clientId then (s, some .InvalidAccountId)
    else if (hfind s.transaction_history md.txId).isSome then
      (s, some .DuplicateTransactionId)
    else
      match s.account.deposit amount with
      | (acc, some e) => ({ s with account := acc }, some (.Account e))
      | (acc, none) =>
        ({ account := acc,
           transaction_history := hinsert s.transaction_history md.txId t },
         none)
  | _ => (s, some .Deposit)

/-- Source `Transaction::withdrawal`. -/
def Transaction.applyWithdrawal (t : Transaction) (s : State) :
    State × Option TxError :=
  match t with
  | .Withdrawal md amount =>
    if s.account.id ≠ md.clientId then (s, some .InvalidAccountId)
    else if (hfind s.transaction_history md.txId).isSome then
      (s, some .DuplicateTransactionId)
    else
      match s.account.withdrawal amount with
      | (acc, some e) => ({ s with account := acc }, some (.Account e))
      | (acc, none) =>
        ({ account := acc,
           transaction_history := hinsert s.transaction_history md.txId t },
         none)
  | _ => (s, some .Withdrawal)

/-- Source `Transaction::dispute`.  On success the looked-up deposit is re-inserted,
with its flag set, under the transaction id of its *stored* metadata
(`md.0` of the history entry, which shadows the dispute's own `md` in the
source). -/
def Transaction.applyDispute (t : Transaction) (s : State) :
    State × Option TxError :=
  match t with
  | .Dispute md =>
    if s.account.id ≠ md.clientId then (s, some .InvalidAccountId)
    else
      match hfind s.transaction_history md.txId with
      | none => (s, some .Dispute)
      | some (.Deposit md1 amount isDisputed) =>
        if isDisputed then (s, some .Dispute)
        else
          match s.account.dispute amount with
          | (acc, some e) => ({ s with account := acc }, some (.Account e))
          | (acc, none) =>
            ({ account := acc,
               transaction_history :=
                 hinsert s.transaction_history md1.txId
                   (.Deposit md1 amount true) },
             none)
      | some _ => (s, some .Dispute)
  | _ => (s, some .Dispute)

/-- Source `Transaction::resolve`. -/
def Transaction.applyResolve (t : Transaction) (s : State) :
    State × Option TxError :=
  match t with
  | .Resolve md =>
    if s.account.id ≠ md.clientId then (s, some .InvalidAccountId)
    else
      match hfind s.transaction_history md.txId with
      | none => (s, some .Resolve)
      | some (.Deposit md1 amount isDisputed) =>
        if ¬isDisputed then (s, some .Resolve)
        else
          match s.account.resolve amount with
          | (acc, some e) => ({ s with account := acc }, some (.Account e))
          | (acc, none) =>
            ({ account := acc,
               transaction_history :=
                 hinsert s.transaction_history md1.txId
                   (.Deposit md1 amount false) },
             none)
      | some _ => (s, some .Resolve)
  | _ => (s, some .Resolve)

/-- Source `Transaction::charge_back`. -/
def Transaction.applyChargeBack (t : Transaction) (s : State) :
    State × Option TxError :=
  match t with
  | .ChargeBack md =>
    if s.account.id ≠ md.clientId then (s, some .InvalidAccountId)
    else
      match hfind s.transaction_history md.txId with
      | none => (s, some .ChargeBack)
      | some (.Deposit md1 amount isDisputed) =>
        if ¬isDisputed then (s, some .ChargeBack)
        else
          match s.account.charge_back amount with
          | (acc, some e) => ({ s with account := acc }, some (.Account e))
          | (acc, none) =>
            ({ account := acc,
               transaction_history :=
                 hinsert s.transaction_history md1.txId
                   (.Deposit md1 amount false) },
             none)
      | some _ => (s, some .ChargeBack)
  | _ => (s, some .ChargeBack)

/-- Source `Transaction::apply`: dispatch on the variant. -/
def Transaction.apply (t : Transaction) (s : State) : State × Option TxError :=
  match t with
  | .Deposit _ _ _ => t.applyDeposit s
  | .Withdrawal _ _ => t.applyWithdrawal s
  | .Dispute _ => t.applyDispute s
  | .Resolve _ => t.applyResolve s
  | .ChargeBack _ => t.applyChargeBack s

/-- Apply a list of transactions in order to one account state, as the
per-account `Handler` does (errors are logged and dropped, the state keeps
whatever `apply` left in it). -/
def applyTxs (s : State) (txs : List Transaction) : State :=
  txs.foldl (fun s t => (t.apply s).1) s

/-- Apply a list of transactions, also collecting the successfully applied
ones in order. -/
def applyTrace (s : State) (txs : List Transaction) : List Transaction :=
  match txs with
  | [] => []
  | t :: rest =>
    match t.apply s with
    | (s1, none) => t :: applyTrace s1 rest
    | (s1, some _) => applyTrace s1 rest

/-- One operation on an account state: either a whole transaction routed
through `Transaction::apply`, or a direct call of one of the five `Account`
mutators. -/
inductive Op where
  | tx (t : Transaction)
  | deposit (a : Amount)
  | withdrawal (a : Amount)
  | dispute (a : Amount)
  | resolve (a : Amount)
  | chargeBack (a : Amount)

/-- Run one operation, keeping whatever state the call left behind whether
it succeeded or failed. -/
def runOp (s : State) : Op → State
  | .tx t => (t.apply s).1
  | .deposit a => { s with account := (s.account.deposit a).1 }
  | .withdrawal a => { s with account := (s.account.withdrawal a).1 }
  | .dispute a => { s with account := (s.account.dispute a).1 }
  | .resolve a => { s with account := (s.account.resolve a).1 }
  | .chargeBack a => { s with account := (s.account.charge_back a).1 }

/-- Run a sequence of operations. -/
def runOps (s : State) (ops : List Op) : State :=
  ops.foldl runOp s

/-- The whole engine: one `State` per client id, as owned by the `Listener`
(`accounts: DashMap<ClientId, State>`; a fresh client's entry is
`State::new(client)`, so lazy creation is observationally the total map
below). -/
def Engine := Nat → State

/-- Initial engine: every client at its fresh state. -/
def engineInit : Engine := fun c => State.new c

/-- Route one transaction to its client's state and apply it, as
`Listener::run` together with the per-account `Handler` does (per-client
FIFO order; failures are logged and dropped). -/
def engineApply (E : Engine) (t : Transaction) : Engine × Option TxError :=
  (fun c => if c = t.client then (t.apply (E t.client)).1 else E c,
   (t.apply (E t.client)).2)

/-- Process a stream of transactions through the engine, collecting the
successfully applied ones in order. -/
def engineTrace (E : Engine) (txs : List Transaction) : List Transaction :=
  match txs with
  | [] => []
  | t :: rest =>
    match engineApply E t with
    | (E1, none) => t :: engineTrace E1 rest
    | (E1, some _) => engineTrace E1 rest

/-- The transaction id of a deposit or withdrawal; `none` on the other
variants. -/
def depWdId : Transaction → Option Nat
  | .Deposit md _ _ => some md.txId
  | .Withdrawal md _ => some md.txId
  | _ => none

/-- The `disputed` flag of a deposit (`false` on the other variants).
Record ingestion (`TryFrom<TransactionRecord>`) only ever builds deposits
with `disputed = false`, so streams reaching `apply` satisfy
`depFlag t = false` for every transaction. -/
def depFlag : Transaction → Bool
  | .Deposit _ _ d => d
  | _ => false

/-- All four balance fields are nonnegative. -/
def Account.nonneg (a : Account) : Prop :=
  0 ≤ a.available ∧ 0 ≤ a.held ∧ 0 ≤ a.total

/-- Contribution of one history entry to the disputed-deposit total. -/
def entryContrib : Transaction → Amount
  | .Deposit _ a true => a
  | _ => 0

/-- Sum of the amounts of the history's `Deposit` entries whose `disputed`
flag is true. -/
def heldSum (h : History) : Amount :=
  match h with
  | [] => 0
  | p :: rest => entryContrib p.2 + heldSum rest

/-! General lemmas about the embedded operations. -/

theorem checkedAdd_some {a b c : Amount} (h : checkedAdd a b = some c) :
    c = a + b := by
  unfold checkedAdd at h
  split at h <;> simp_all

theorem checkedSub_some {a b c : Amount} (h : checkedSub a b = some c) :
    c = a - b := by
  unfold checkedSub at h
  split at h <;> simp_all

theorem hfind_hinsert_self (h : History) (k : Nat) (t : Transaction) :
    hfind (hinsert h k t) k = some t := by
  simp [hinsert, hfind]

theorem hfind_hremove (h : History) (k k1 : Nat) (hk : k1 ≠ k) :
    hfind (hremove h k) k1 = hfind h k1 := by
  induction h with
  | nil => rfl
  | cons p rest ih =>
    obtain ⟨k2, u⟩ := p
    rw [hremove]
    by_cases h2 : k2 = k
    · rw [if_pos h2, ih, hfind, if_neg (fun h3 => hk (h3.symm.trans h2))]
    · rw [if_neg h2, hfind, hfind]
      by_cases h3 : k2 = k1
      · rw [if_pos h3, if_pos h3]
      · rw [if_neg h3, if_neg h3, ih]

theorem hfind_hinsert_ne (h : History) (k k1 : Nat) (t : Transaction)
    (hk : k1 ≠ k) : hfind (hinsert h k t) k1 = hfind h k1 := by
  rw [hinsert, hfind, if_neg (fun h3 => hk h3.symm), hfind_hremove _ _ _ hk]

theorem hfind_mem {h : History} {k : Nat} {t : Transaction}
    (hf : hfind h k = some t) : (k, t) ∈ h := by
  induction h with
  | nil => simp [hfind] at hf
  | cons p rest ih =>
    obtain ⟨k1, u⟩ := p
    rw [hfind] at hf
    by_cases h1 : k1 = k
    · subst h1
      rw [if_pos rfl] at hf
      simp_all
    · rw [if_neg h1] at hf
      exact List.mem_cons_of_mem _ (ih hf)

theorem hremove_subset {h : History} {k : Nat} {p : Nat × Transaction}
    (hp : p ∈ hremove h k) : p ∈ h := by
  induction h with
  | nil => simp [hremove] at hp
  | cons q rest ih =>
    obtain ⟨k1, u⟩ := q
    rw [hremove] at hp
    by_cases h1 : k1 = k
    · rw [if_pos h1] at hp
      exact List.mem_cons_of_mem _ (ih hp)
    · rw [if_neg h1] at hp
      rcases List.mem_cons.1 hp with h2 | h2
      · exact h2 ▸ List.mem_cons_self _ _
      · exact List.mem_cons_of_mem _ (ih h2)

theorem hremove_key_ne {h : History} {k : Nat} {p : Nat × Transaction}
    (hp : p ∈ hremove h k) : p.1 ≠ k := by
  induction h with
  | nil => simp [hremove] at hp
  | cons q rest ih =>
    obtain ⟨k1, u⟩ := q
    rw [hremove] at hp
    by_cases h1 : k1 = k
    · rw [if_pos h1] at hp
      exact ih hp
    · rw [if_neg h1] at hp
      rcases List.mem_cons.1 hp with h2 | h2
      · subst h2; exact h1
      · exact ih h2

theorem hinsert_mem {h : History} {k : Nat} {t : Transaction}
    {p : Nat × Transaction} (hp : p ∈ hinsert h k t) :
    p = (k, t) ∨ (p ∈ h ∧ p.1 ≠ k) := by
  rw [hinsert] at hp
  rcases List.mem_cons.1 hp with h1 | h1
  · exact Or.inl h1
  · exact Or.inr ⟨hremove_subset h1, hremove_key_ne h1⟩

theorem hremove_sublist (h : History) (k : Nat) :
    (hremove h k).Sublist h := by
  induction h with
  | nil => simp [hremove]
  | cons q rest ih =>
    obtain ⟨k1, u⟩ := q
    rw [hremove]
    by_cases h1 : k1 = k
    · rw [if_pos h1]
      exact ih.cons _
    · rw [if_neg h1]
      exact ih.cons₂ _

theorem hinsert_keys_nodup {h : History} (hn : (h.map Prod.fst).Nodup)
    (k : Nat) (t : Transaction) :
    ((hinsert h k t).map Prod.fst).Nodup := by
  rw [hinsert, List.map_cons, List.nodup_cons]
  constructor
  · intro hk
    rcases List.mem_map.1 hk with ⟨p, hp, hpk⟩
    exact hremove_key_ne hp hpk
  · exact hn.sublist ((hremove_sublist h k).map Prod.fst)

theorem hfind_none_of_nodup_not_mem {h : History} {k : Nat}
    (hk : k ∉ h.map Prod.fst) : hfind h k = none := by
  induction h with
  | nil => rfl
  | cons p rest ih =>
    obtain ⟨k1, u⟩ := p
    simp only [List.map_cons, List.mem_cons, not_or] at hk
    rw [hfind, if_neg (fun h1 => hk.1 h1.symm), ih hk.2]

theorem hremove_of_hfind_none {h : History} {k : Nat}
    (hf : hfind h k = none) : hremove h k = h := by
  induction h with
  | nil => rfl
  | cons p rest ih =>
    obtain ⟨k1, u⟩ := p
    rw [hfind] at hf
    by_cases h1 : k1 = k
    · rw [if_pos h1] at hf; exact absurd hf (by simp)
    · rw [if_neg h1] at hf
      rw [hremove, if_neg h1, ih hf]

theorem heldSum_hremove {h : History} {k : Nat} {t : Transaction}
    (hn : (h.map Prod.fst).Nodup) (hf : hfind h k = some t) :
    heldSum h = entryContrib t + heldSum (hremove h k) := by
  induction h with
  | nil => simp [hfind] at hf
  | cons p rest ih =>
    obtain ⟨k1, u⟩ := p
    rw [List.map_cons, List.nodup_cons] at hn
    rw [hfind] at hf
    by_cases h1 : k1 = k
    · subst h1
      rw [if_pos rfl] at hf
      injection hf with hf
      subst hf
      rw [hremove, if_pos rfl,
        hremove_of_hfind_none (hfind_none_of_nodup_not_mem hn.1), heldSum]
    · rw [if_neg h1] at hf
      rw [hremove, if_neg h1, heldSum, heldSum, ih hn.2 hf]
      ring

theorem entryContrib_nonneg {t : Transaction}
    (hpos : ∀ m a d, t = Transaction.Deposit m a d → 0 < a) :
    0 ≤ entryContrib t := by
  cases t with
  | Deposit m a d =>
    cases d with
    | true => exact le_of_lt (hpos m a true rfl)
    | false => exact le_refl 0
  | Withdrawal m a => exact le_refl 0
  | Dispute m => exact le_refl 0
  | Resolve m => exact le_refl 0
  | ChargeBack m => exact le_refl 0

theorem heldSum_nonneg {h : History}
    (hpos : ∀ p ∈ h, ∀ m a d, p.2 = Transaction.Deposit m a d → 0 < a) :
    0 ≤ heldSum h := by
  induction h with
  | nil => exact le_refl 0
  | cons p rest ih =>
    rw [heldSum]
    have h1 : 0 ≤ entryContrib p.2 :=
      entryContrib_nonneg (fun m a d heq =>
        hpos p (List.mem_cons_self _ _) m a d heq)
    have h2 : 0 ≤ heldSum rest :=
      ih (fun q hq => hpos q (List.mem_cons_of_mem _ hq))
    exact add_nonneg h1 h2

theorem contrib_le_heldSum {h : History} {k : Nat} {t : Transaction}
    (hpos : ∀ p ∈ h, ∀ m a d, p.2 = Transaction.Deposit m a d → 0 < a)
    (hf : hfind h k = some t) : entryContrib t ≤ heldSum h := by
  induction h with
  | nil => simp [hfind] at hf
  | cons p rest ih =>
    obtain ⟨k1, u⟩ := p
    rw [hfind] at hf
    have hrest : ∀ p ∈ rest, ∀ m a d, p.2 = Transaction.Deposit m a d → 0 < a :=
      fun q hq => hpos q (List.mem_cons_of_mem _ hq)
    by_cases h1 : k1 = k
    · rw [if_pos h1] at hf
      injection hf with hf
      rw [← hf]
      show entryContrib u ≤ entryContrib u + heldSum rest
      have h2 := heldSum_nonneg hrest
      linarith
    · rw [if_neg h1] at hf
      have h2 : 0 ≤ entryContrib u :=
        entryContrib_nonneg (fun m a d heq =>
          hpos (k1, u) (List.mem_cons_self _ _) m a d heq)
      have h3 := ih hrest hf
      show entryContrib t ≤ entryContrib u + heldSum rest
      linarith

theorem Account.deposit_spec (a : Account) (x : Amount) :
    (∃ e, a.deposit x = (a, some e)) ∨
    (∃ av, checkedAdd a.available x = some av ∧
       checkedAdd a.total x = none ∧
       a.deposit x = ({ a with available := av }, some .Overflow) ∧
       0 < x ∧ a.locked = false) ∨
    (a.deposit x =
        ({ a with available := a.available + x, total := a.total + x }, none) ∧
      0 < x ∧ a.locked = false) := by
  unfold Account.deposit
  split
  next hx => exact Or.inl ⟨_, rfl⟩
  next hx =>
    split
    next hl => exact Or.inl ⟨_, rfl⟩
    next hl =>
      split
      next => exact Or.inl ⟨_, rfl⟩
      next av hav =>
        split
        next ht =>
          exact Or.inr (Or.inl ⟨av, hav, ht, rfl, not_le.1 hx, by simpa using hl⟩)
        next t ht =>
          refine Or.inr (Or.inr ⟨?_, not_le.1 hx, by simpa using hl⟩)
          rw [checkedAdd_some hav, checkedAdd_some ht]

theorem Account.withdrawal_spec (a : Account) (x : Amount) :
    (∃ e, a.withdrawal x = (a, some e)) ∨
    (a.withdrawal x =
        ({ a with available := a.available - x, total := a.total - x }, none) ∧
      0 < x ∧ a.locked = false ∧ 0 ≤ a.available - x ∧ 0 ≤ a.total - x) := by
  unfold Account.withdrawal
  split
  next hx => exact Or.inl ⟨_, rfl⟩
  next hx =>
    split
    next hl => exact Or.inl ⟨_, rfl⟩
    next hl =>
      split
      next => exact Or.inl ⟨_, rfl⟩
      next d1 h1 =>
        split
        next => exact Or.inl ⟨_, rfl⟩
        next hd1 =>
          split
          next => exact Or.inl ⟨_, rfl⟩
          next d2 h2 =>
            split
            next => exact Or.inl ⟨_, rfl⟩
            next hd2 =>
              refine Or.inr ⟨?_, not_le.1 hx, by simpa using hl, ?_, ?_⟩
              · rw [checkedSub_some h1, checkedSub_some h2]
              · rw [← checkedSub_some h1]; exact not_lt.1 hd1
              · rw [← checkedSub_some h2]; exact not_lt.1 hd2

theorem Account.dispute_spec (a : Account) (x : Amount) :
    (∃ e, a.dispute x = (a, some e)) ∨
    (a.dispute x =
        ({ a with available := a.available - x, held := a.held + x }, none) ∧
      0 < x ∧ a.locked = false ∧ 0 ≤ a.available - x) := by
  unfold Account.dispute
  split
  next hx => exact Or.inl ⟨_, rfl⟩
  next hx =>
    split
    next hl => exact Or.inl ⟨_, rfl⟩
    next hl =>
      split
      next => exact Or.inl ⟨_, rfl⟩
      next d1 h1 =>
        split
        next => exact Or.inl ⟨_, rfl⟩
        next hd1 =>
          split
          next => exact Or.inl ⟨_, rfl⟩
          next h2 hh =>
            refine Or.inr ⟨?_, not_le.1 hx, by simpa using hl, ?_⟩
            · rw [checkedSub_some h1, checkedAdd_some hh]
            · rw [← checkedSub_some h1]; exact not_lt.1 hd1

theorem Account.resolve_spec (a : Account) (x : Amount) :
    (∃ e, a.resolve x = (a, some e)) ∨
    (a.resolve x =
        ({ a with available := a.available + x, held := a.held - x }, none) ∧
      0 < x ∧ a.locked = false ∧ 0 ≤ a.held - x) := by
  unfold Account.resolve
  split
  next hx => exact Or.inl ⟨_, rfl⟩
  next hx =>
    split
    next hl => exact Or.inl ⟨_, rfl⟩
    next hl =>
      split
      next => exact Or.inl ⟨_, rfl⟩
      next d1 h1 =>
        split
        next => exact Or.inl ⟨_, rfl⟩
        next hd1 =>
          split
          next => exact Or.inl ⟨_, rfl⟩
          next h2 hh =>
            refine Or.inr ⟨?_, not_le.1 hx, by simpa using hl, ?_⟩
            · rw [checkedSub_some h1, checkedAdd_some hh]
            · rw [← checkedSub_some h1]; exact not_lt.1 hd1

theorem Account.charge_back_spec (a : Account) (x : Amount) :
    (∃ e, a.charge_back x = (a, some e)) ∨
    (a.charge_back x =
        ({ a with held := a.held - x, total := a.total - x, locked := true },
          none) ∧
      0 < x ∧ a.locked = false ∧ 0 ≤ a.held - x ∧ 0 ≤ a.total - x) := by
  unfold Account.charge_back
  split
  next hx => exact Or.inl ⟨_, rfl⟩
  next hx =>
    split
    next hl => exact Or.inl ⟨_, rfl⟩
    next hl =>
      split
      next => exact Or.inl ⟨_, rfl⟩
      next d1 h1 =>
        split
        next => exact Or.inl ⟨_, rfl⟩
        next hd1 =>
          split
          next => exact Or.inl ⟨_, rfl⟩
          next d2 h2 =>
            split
            next => exact Or.inl ⟨_, rfl⟩
            next hd2 =>
              refine Or.inr ⟨?_, not_le.1 hx, by simpa using hl, ?_, ?_⟩
              · rw [checkedSub_some h1, checkedSub_some h2]
              · rw [← checkedSub_some h1]; exact not_lt.1 hd1
              · rw [← checkedSub_some h2]; exact not_lt.1 hd2

theorem applyDeposit_eq (md : TransactionMetadata) (amount : Amount)
    (d : Bool) (s : State) :
    (Transaction.Deposit md amount d).apply s =
      (if s.account.id ≠ md.clientId then (s, some TxError.InvalidAccountId)
       else if (hfind s.transaction_history md.txId).isSome then
         (s, some TxError.DuplicateTransactionId)
       else
         match s.account.deposit amount with
         | (acc, some e) =>
           ({ s with account := acc }, some (TxError.Account e))
         | (acc, none) =>
           ({ account := acc,
              transaction_history := hinsert s.transaction_history md.txId
                (Transaction.Deposit md amount d) }, none)) := rfl

theorem applyWithdrawal_eq (md : TransactionMetadata) (amount : Amount)
    (s : State) :
    (Transaction.Withdrawal md amount).apply s =
      (if s.account.id ≠ md.clientId then (s, some TxError.InvalidAccountId)
       else if (hfind s.transaction_history md.txId).isSome then
         (s, some TxError.DuplicateTransactionId)
       else
         match s.account.withdrawal amount with
         | (acc, some e) =>
           ({ s with account := acc }, some (TxError.Account e))
         | (acc, none) =>
           ({ account := acc,
              transaction_history := hinsert s.transaction_history md.txId
                (Transaction.Withdrawal md amount) }, none)) := rfl

theorem applyDispute_eq (md : TransactionMetadata) (s : State) :
    (Transaction.Dispute md).apply s =
      (if s.account.id ≠ md.clientId then (s, some TxError.InvalidAccountId)
       else
         match hfind s.transaction_history md.txId with
         | none => (s, some TxError.Dispute)
         | some (.Deposit md1 amount isDisputed) =>
           if isDisputed then (s, some TxError.Dispute)
           else
             match s.account.dispute amount with
             | (acc, some e) =>
               ({ s with account := acc }, some (TxError.Account e))
             | (acc, none) =>
               ({ account := acc,
                  transaction_history := hinsert s.transaction_history
                    md1.txId (.Deposit md1 amount true) }, none)
         | some _ => (s, some TxError.Dispute)) := rfl

theorem applyResolve_eq (md : TransactionMetadata) (s : State) :
    (Transaction.Resolve md).apply s =
      (if s.account.id ≠ md.clientId then (s, some TxError.InvalidAccountId)
       else
         match hfind s.transaction_history md.txId with
         | none => (s, some TxError.Resolve)
         | some (.Deposit md1 amount isDisputed) =>
           if ¬isDisputed then (s, some TxError.Resolve)
           else
             match s.account.resolve amount with
             | (acc, some e) =>
               ({ s with account := acc }, some (TxError.Account e))
             | (acc, none) =>
               ({ account := acc,
                  transaction_history := hinsert s.transaction_history
                    md1.txId (.Deposit md1 amount false) }, none)
         | some _ => (s, some TxError.Resolve)) := rfl

theorem applyChargeBack_eq (md : TransactionMetadata) (s : State) :
    (Transaction.ChargeBack md).apply s =
      (if s.account.id ≠ md.clientId then (s, some TxError.InvalidAccountId)
       else
         match hfind s.transaction_history md.txId with
         | none => (s, some TxError.ChargeBack)
         | some (.Deposit md1 amount isDisputed) =>
           if ¬isDisputed then (s, some TxError.ChargeBack)
           else
             match s.account.charge_back amount with
             | (acc, some e) =>
               ({ s with account := acc }, some (TxError.Account e))
             | (acc, none) =>
               ({ account := acc,
                  transaction_history := hinsert s.transaction_history
                    md1.txId (.Deposit md1 amount false) }, none)
         | some _ => (s, some TxError.ChargeBack)) := rfl

theorem Account.deposit_locked_fail {a : Account} (h : a.locked = true)
    (x : Amount) : (a.deposit x).1 = a ∧ (a.deposit x).2.isSome := by
  rcases Account.deposit_spec a x with ⟨e, he⟩ | ⟨av, _, _, he, _, hl⟩ |
    ⟨he, _, hl⟩
  · rw [he]; exact ⟨rfl, rfl⟩
  · rw [h] at hl; cases hl
  · rw [h] at hl; cases hl

theorem Account.withdrawal_locked_fail {a : Account} (h : a.locked = true)
    (x : Amount) : (a.withdrawal x).1 = a ∧ (a.withdrawal x).2.isSome := by
  rcases Account.withdrawal_spec a x with ⟨e, he⟩ | ⟨he, _, hl, _⟩
  · rw [he]; exact ⟨rfl, rfl⟩
  · rw [h] at hl; cases hl

theorem Account.dispute_locked_fail {a : Account} (h : a.locked = true)
    (x : Amount) : (a.dispute x).1 = a ∧ (a.dispute x).2.isSome := by
  rcases Account.dispute_spec a x with ⟨e, he⟩ | ⟨he, _, hl, _⟩
  · rw [he]; exact ⟨rfl, rfl⟩
  · rw [h] at hl; cases hl

theorem Account.resolve_locked_fail {a : Account} (h : a.locked = true)
    (x : Amount) : (a.resolve x).1 = a ∧ (a.resolve x).2.isSome := by
  rcases Account.resolve_spec a x with ⟨e, he⟩ | ⟨he, _, hl, _⟩
  · rw [he]; exact ⟨rfl, rfl⟩
  · rw [h] at hl; cases hl

theorem Account.charge_back_locked_fail {a : Account} (h : a.locked = true)
    (x : Amount) : (a.charge_back x).1 = a ∧ (a.charge_back x).2.isSome := by
  rcases Account.charge_back_spec a x with ⟨e, he⟩ | ⟨he, _, hl, _⟩
  · rw [he]; exact ⟨rfl, rfl⟩
  · rw [h] at hl; cases hl

theorem Account.deposit_nonneg {a : Account} (h : a.nonneg) (x : Amount) :
    ((a.deposit x).1).nonneg := by
  obtain ⟨h1, h2, h3⟩ := h
  rcases Account.deposit_spec a x with ⟨e, he⟩ | ⟨av, hav, _, he, hx, _⟩ |
    ⟨he, hx, _⟩
  · rw [he]; exact ⟨h1, h2, h3⟩
  · rw [he]
    refine ⟨?_, h2, h3⟩
    show 0 ≤ av
    rw [checkedAdd_some hav]
    linarith
  · rw [he]
    exact ⟨by show 0 ≤ a.available + x; linarith, h2,
      by show 0 ≤ a.total + x; linarith⟩

theorem Account.withdrawal_nonneg {a : Account} (h : a.nonneg) (x : Amount) :
    ((a.withdrawal x).1).nonneg := by
  obtain ⟨h1, h2, h3⟩ := h
  rcases Account.withdrawal_spec a x with ⟨e, he⟩ | ⟨he, hx, _, h4, h5⟩
  · rw [he]; exact ⟨h1, h2, h3⟩
  · rw [he]; exact ⟨h4, h2, h5⟩

theorem Account.dispute_nonneg {a : Account} (h : a.nonneg) (x : Amount) :
    ((a.dispute x).1).nonneg := by
  obtain ⟨h1, h2, h3⟩ := h
  rcases Account.dispute_spec a x with ⟨e, he⟩ | ⟨he, hx, _, h4⟩
  · rw [he]; exact ⟨h1, h2, h3⟩
  · rw [he]; exact ⟨h4, by show 0 ≤ a.held + x; linarith, h3⟩

theorem Account.resolve_nonneg {a : Account} (h : a.nonneg) (x : Amount) :
    ((a.resolve x).1).nonneg := by
  obtain ⟨h1, h2, h3⟩ := h
  rcases Account.resolve_spec a x with ⟨e, he⟩ | ⟨he, hx, _, h4⟩
  · rw [he]; exact ⟨h1, h2, h3⟩
  · rw [he]; exact ⟨by show 0 ≤ a.available + x; linarith, h4, h3⟩

theorem Account.charge_back_nonneg {a : Account} (h : a.nonneg) (x : Amount) :
    ((a.charge_back x).1).nonneg := by
  obtain ⟨h1, h2, h3⟩ := h
  rcases Account.charge_back_spec a x with ⟨e, he⟩ | ⟨he, hx, _, h4, h5⟩
  · rw [he]; exact ⟨h1, h2, h3⟩
  · rw [he]; exact ⟨h1, h4, h5⟩

theorem apply_locked_fail {s : State} (h : s.account.locked = true)
    (t : Transaction) : (t.apply s).1 = s ∧ (t.apply s).2.isSome := by
  cases t with
  | Deposit md amount d =>
    rw [applyDeposit_eq]
    split
    next => exact ⟨rfl, rfl⟩
    next =>
      split
      next => exact ⟨rfl, rfl⟩
      next =>
        have hd := Account.deposit_locked_fail h amount
        split
        next acc e heq =>
          rw [heq] at hd
          refine ⟨?_, rfl⟩
          show ({ s with account := acc } : State) = s
          have h2 : acc = s.account := hd.1
          rw [h2]
        next acc heq =>
          rw [heq] at hd
          simp at hd
  | Withdrawal md amount =>
    rw [applyWithdrawal_eq]
    split
    next => exact ⟨rfl, rfl⟩
    next =>
      split
      next => exact ⟨rfl, rfl⟩
      next =>
        have hd := Account.withdrawal_locked_fail h amount
        split
        next acc e heq =>
          rw [heq] at hd
          refine ⟨?_, rfl⟩
          show ({ s with account := acc } : State) = s
          have h2 : acc = s.account := hd.1
          rw [h2]
        next acc heq =>
          rw [heq] at hd
          simp at hd
  | Dispute md =>
    rw [applyDispute_eq]
    split
    next => exact ⟨rfl, rfl⟩
    next =>
      split
      next => exact ⟨rfl, rfl⟩
      next md1 amount isDisputed hfd =>
        split
        next => exact ⟨rfl, rfl⟩
        next =>
          have hd := Account.dispute_locked_fail h amount
          split
          next acc e heq =>
            rw [heq] at hd
            refine ⟨?_, rfl⟩
            show ({ s with account := acc } : State) = s
            have h2 : acc = s.account := hd.1
            rw [h2]
          next acc heq =>
            rw [heq] at hd
            simp at hd
      next hne => exact ⟨rfl, rfl⟩
  | Resolve md =>
    rw [applyResolve_eq]
    split
    next => exact ⟨rfl, rfl⟩
    next =>
      split
      next => exact ⟨rfl, rfl⟩
      next md1 amount isDisputed hfd =>
        split
        next => exact ⟨rfl, rfl⟩
        next =>
          have hd := Account.resolve_locked_fail h amount
          split
          next acc e heq =>
            rw [heq] at hd
            refine ⟨?_, rfl⟩
            show ({ s with account := acc } : State) = s
            have h2 : acc = s.account := hd.1
            rw [h2]
          next acc heq =>
            rw [heq] at hd
            simp at hd
      next hne => exact ⟨rfl, rfl⟩
  | ChargeBack md =>
    rw [applyChargeBack_eq]
    split
    next => exact ⟨rfl, rfl⟩
    next =>
      split
      next => exact ⟨rfl, rfl⟩
      next md1 amount isDisputed hfd =>
        split
        next => exact ⟨rfl, rfl⟩
        next =>
          have hd := Account.charge_back_locked_fail h amount
          split
          next acc e heq =>
            rw [heq] at hd
            refine ⟨?_, rfl⟩
            show ({ s with account := acc } : State) = s
            have h2 : acc = s.account := hd.1
            rw [h2]
          next acc heq =>
            rw [heq] at hd
            simp at hd
      next hne => exact ⟨rfl, rfl⟩

theorem Account.deposit_held (a : Account) (x : Amount) :
    ((a.deposit x).1).held = a.held := by
  rcases Account.deposit_spec a x with ⟨e, he⟩ | ⟨av, _, _, he, _, _⟩ |
    ⟨he, _, _⟩ <;> rw [he]

theorem Account.withdrawal_err {a : Account} {x : Amount} {e : AccountError}
    (h : (a.withdrawal x).2 = some e) : (a.withdrawal x).1 = a := by
  rcases Account.withdrawal_spec a x with ⟨e1, he⟩ | ⟨he, _⟩
  · rw [he]
  · rw [he] at h; exact Option.noConfusion h

theorem Account.dispute_err {a : Account} {x : Amount} {e : AccountError}
    (h : (a.dispute x).2 = some e) : (a.dispute x).1 = a := by
  rcases Account.dispute_spec a x with ⟨e1, he⟩ | ⟨he, _⟩
  · rw [he]
  · rw [he] at h; exact Option.noConfusion h

theorem Account.resolve_err {a : Account} {x : Amount} {e : AccountError}
    (h : (a.resolve x).2 = some e) : (a.resolve x).1 = a := by
  rcases Account.resolve_spec a x with ⟨e1, he⟩ | ⟨he, _⟩
  · rw [he]
  · rw [he] at h; exact Option.noConfusion h

theorem Account.charge_back_err {a : Account} {x : Amount} {e : AccountError}
    (h : (a.charge_back x).2 = some e) : (a.charge_back x).1 = a := by
  rcases Account.charge_back_spec a x with ⟨e1, he⟩ | ⟨he, _⟩
  · rw [he]
  · rw [he] at h; exact Option.noConfusion h

/-- Every `apply` either leaves the history untouched, or succeeded and
replaced one binding. -/
theorem apply_shape (t : Transaction) (s : State) :
    (t.apply s).1.transaction_history = s.transaction_history ∨
    ((t.apply s).2 = none ∧ ∃ k u,
      (t.apply s).1.transaction_history = hinsert s.transaction_history k u)
    := by
  cases t with
  | Deposit md amount d =>
    rw [applyDeposit_eq]
    split
    next => exact Or.inl rfl
    next =>
      split
      next => exact Or.inl rfl
      next =>
        split
        next acc e heq => exact Or.inl rfl
        next acc heq => exact Or.inr ⟨rfl, _, _, rfl⟩
  | Withdrawal md amount =>
    rw [applyWithdrawal_eq]
    split
    next => exact Or.inl rfl
    next =>
      split
      next => exact Or.inl rfl
      next =>
        split
        next acc e heq => exact Or.inl rfl
        next acc heq => exact Or.inr ⟨rfl, _, _, rfl⟩
  | Dispute md =>
    rw [applyDispute_eq]
    split
    next => exact Or.inl rfl
    next =>
      split
      next => exact Or.inl rfl
      next md1 amount isDisputed hfd =>
        split
        next => exact Or.inl rfl
        next =>
          split
          next acc e heq => exact Or.inl rfl
          next acc heq => exact Or.inr ⟨rfl, _, _, rfl⟩
      next hne => exact Or.inl rfl
  | Resolve md =>
    rw [applyResolve_eq]
    split
    next => exact Or.inl rfl
    next =>
      split
      next => exact Or.inl rfl
      next md1 amount isDisputed hfd =>
        split
        next => exact Or.inl rfl
        next =>
          split
          next acc e heq => exact Or.inl rfl
          next acc heq => exact Or.inr ⟨rfl, _, _, rfl⟩
      next hne => exact Or.inl rfl
  | ChargeBack md =>
    rw [applyChargeBack_eq]
    split
    next => exact Or.inl rfl
    next =>
      split
      next => exact Or.inl rfl
      next md1 amount isDisputed hfd =>
        split
        next => exact Or.inl rfl
        next =>
          split
          next acc e heq => exact Or.inl rfl
          next acc heq => exact Or.inr ⟨rfl, _, _, rfl⟩
      next hne => exact Or.inl rfl

/-- Applying a transaction keeps all four balance fields nonnegative, on success and on
failure alike. -/
theorem apply_account_nonneg {s : State} (h : s.account.nonneg)
    (t : Transaction) : ((t.apply s).1.account).nonneg := by
  cases t with
  | Deposit md amount d =>
    rw [applyDeposit_eq]
    split
    next => exact h
    next =>
      split
      next => exact h
      next =>
        have hd := Account.deposit_nonneg h amount
        split
        next acc e heq => rw [heq] at hd; exact hd
        next acc heq => rw [heq] at hd; exact hd
  | Withdrawal md amount =>
    rw [applyWithdrawal_eq]
    split
    next => exact h
    next =>
      split
      next => exact h
      next =>
        have hd := Account.withdrawal_nonneg h amount
        split
        next acc e heq => rw [heq] at hd; exact hd
        next acc heq => rw [heq] at hd; exact hd
  | Dispute md =>
    rw [applyDispute_eq]
    split
    next => exact h
    next =>
      split
      next => exact h
      next md1 amount isDisputed hfd =>
        split
        next => exact h
        next =>
          have hd := Account.dispute_nonneg h amount
          split
          next acc e heq => rw [heq] at hd; exact hd
          next acc heq => rw [heq] at hd; exact hd
      next hne => exact h
  | Resolve md =>
    rw [applyResolve_eq]
    split
    next => exact h
    next =>
      split
      next => exact h
      next md1 amount isDisputed hfd =>
        split
        next => exact h
        next =>
          have hd := Account.resolve_nonneg h amount
          split
          next acc e heq => rw [heq] at hd; exact hd
          next acc heq => rw [heq] at hd; exact hd
      next hne => exact h
  | ChargeBack md =>
    rw [applyChargeBack_eq]
    split
    next => exact h
    next =>
      split
      next => exact h
      next md1 amount isDisputed hfd =>
        split
        next => exact h
        next =>
          have hd := Account.charge_back_nonneg h amount
          split
          next acc e heq => rw [heq] at hd; exact hd
          next acc heq => rw [heq] at hd; exact hd
      next hne => exact h

/-- A deposit or withdrawal that applied successfully found its id absent
and inserted itself under that id. -/
theorem applyDepWd_ok {t : Transaction} {s : State} {j : Nat}
    (hj : depWdId t = some j) (h : (t.apply s).2 = none) :
    hfind s.transaction_history j = none ∧
    (t.apply s).1.transaction_history = hinsert s.transaction_history j t
    := by
  cases t with
  | Deposit md amount d =>
    have hjj : j = md.txId := by
      simp [depWdId] at hj
      exact hj.symm
    subst hjj
    rw [applyDeposit_eq] at h ⊢
    split at h
    next => simp at h
    next hid =>
      split at h
      next => simp at h
      next hdup =>
        refine ⟨Option.not_isSome_iff_eq_none.1 (by simpa using hdup), ?_⟩
        rw [if_neg hid, if_neg hdup]
        split at h
        next acc e heq => simp at h
        next acc heq => rfl
  | Withdrawal md amount =>
    have hjj : j = md.txId := by
      simp [depWdId] at hj
      exact hj.symm
    subst hjj
    rw [applyWithdrawal_eq] at h ⊢
    split at h
    next => simp at h
    next hid =>
      split at h
      next => simp at h
      next hdup =>
        refine ⟨Option.not_isSome_iff_eq_none.1 (by simpa using hdup), ?_⟩
        rw [if_neg hid, if_neg hdup]
        split at h
        next acc e heq => simp at h
        next acc heq => rfl
  | Dispute md => simp [depWdId] at hj
  | Resolve md => simp [depWdId] at hj
  | ChargeBack md => simp [depWdId] at hj

/-- History keys are never removed by `apply`. -/
theorem apply_keys_mono {t : Transaction} {s : State} {k : Nat}
    (h : (hfind s.transaction_history k).isSome) :
    (hfind (t.apply s).1.transaction_history k).isSome := by
  rcases apply_shape t s with hs | ⟨_, k1, u, hs⟩
  · rw [hs]; exact h
  · rw [hs]
    by_cases hk : k = k1
    · subst hk; rw [hfind_hinsert_self]; rfl
    · rw [hfind_hinsert_ne _ _ _ _ hk]; exact h

theorem hfind_none_step {t : Transaction} {s : State} {j : Nat}
    (h1 : hfind (t.apply s).1.transaction_history j = none) :
    hfind s.transaction_history j = none := by
  cases hs : hfind s.transaction_history j with
  | none => rfl
  | some u =>
    have h2 := apply_keys_mono (t := t) (s := s) (k := j) (by rw [hs]; rfl)
    rw [h1] at h2
    simp at h2

/-- Every id among the successfully applied deposits and withdrawals of a
run was absent from the history when the run began. -/
theorem applyTrace_fresh {txs : List Transaction} {s : State} {j : Nat}
    (hj : j ∈ (applyTrace s txs).filterMap depWdId) :
    hfind s.transaction_history j = none := by
  induction txs generalizing s with
  | nil => simp [applyTrace] at hj
  | cons t rest ih =>
    rw [applyTrace] at hj
    split at hj
    next s1 heq =>
      have h2 : (t.apply s).1 = s1 := congrArg Prod.fst heq
      have hnone : (t.apply s).2 = none := by rw [heq]
      cases hdt : depWdId t with
      | none =>
        rw [List.filterMap_cons, hdt] at hj
        exact hfind_none_step (t := t) (h2 ▸ ih hj)
      | some b =>
        rw [List.filterMap_cons, hdt] at hj
        rcases List.mem_cons.1 hj with hb | hb
        · subst hb
          exact (applyDepWd_ok hdt hnone).1
        · exact hfind_none_step (t := t) (h2 ▸ ih hb)
    next s1 e heq =>
      have h2 : (t.apply s).1 = s1 := congrArg Prod.fst heq
      exact hfind_none_step (t := t) (h2 ▸ ih hj)

/-- The ids of the successfully applied deposits and withdrawals of any
per-account run are pairwise distinct. -/
theorem applyTrace_nodup (s : State) (txs : List Transaction) :
    ((applyTrace s txs).filterMap depWdId).Nodup := by
  induction txs generalizing s with
  | nil => simp [applyTrace]
  | cons t rest ih =>
    rw [applyTrace]
    split
    next s1 heq =>
      have h2 : (t.apply s).1 = s1 := congrArg Prod.fst heq
      have hnone : (t.apply s).2 = none := by rw [heq]
      cases hdt : depWdId t with
      | none =>
        rw [List.filterMap_cons, hdt]
        exact ih s1
      | some b =>
        rw [List.filterMap_cons, hdt]
        rw [List.nodup_cons]
        refine ⟨?_, ih s1⟩
        intro hb
        have h3 := applyTrace_fresh hb
        have h4 := (applyDepWd_ok hdt hnone).2
        rw [h2] at h4
        rw [h4, hfind_hinsert_self] at h3
        exact Option.noConfusion h3
    next s1 e heq =>
      exact ih s1

theorem Account.deposit_ok_eq {a : Account} {x : Amount} {acc : Account}
    (heq : a.deposit x = (acc, none)) :
    0 < x ∧ acc = { a with available := a.available + x,
                           total := a.total + x } := by
  rcases Account.deposit_spec a x with ⟨e, he⟩ | ⟨av, _, _, he, _, _⟩ |
    ⟨he, hx, _⟩ <;> rw [he] at heq
  · exact absurd (congrArg Prod.snd heq) (by simp)
  · exact absurd (congrArg Prod.snd heq) (by simp)
  · exact ⟨hx, (congrArg Prod.fst heq).symm⟩

theorem Account.withdrawal_ok_eq {a : Account} {x : Amount} {acc : Account}
    (heq : a.withdrawal x = (acc, none)) :
    0 < x ∧ acc = { a with available := a.available - x,
                           total := a.total - x } := by
  rcases Account.withdrawal_spec a x with ⟨e, he⟩ | ⟨he, hx, _⟩ <;>
    rw [he] at heq
  · exact absurd (congrArg Prod.snd heq) (by simp)
  · exact ⟨hx, (congrArg Prod.fst heq).symm⟩

theorem Account.dispute_ok_eq {a : Account} {x : Amount} {acc : Account}
    (heq : a.dispute x = (acc, none)) :
    0 < x ∧ acc = { a with available := a.available - x,
                           held := a.held + x } := by
  rcases Account.dispute_spec a x with ⟨e, he⟩ | ⟨he, hx, _⟩ <;>
    rw [he] at heq
  · exact absurd (congrArg Prod.snd heq) (by simp)
  · exact ⟨hx, (congrArg Prod.fst heq).symm⟩

theorem Account.resolve_ok_eq {a : Account} {x : Amount} {acc : Account}
    (heq : a.resolve x = (acc, none)) :
    0 < x ∧ acc = { a with available := a.available + x,
                           held := a.held - x } := by
  rcases Account.resolve_spec a x with ⟨e, he⟩ | ⟨he, hx, _⟩ <;>
    rw [he] at heq
  · exact absurd (congrArg Prod.snd heq) (by simp)
  · exact ⟨hx, (congrArg Prod.fst heq).symm⟩

theorem Account.charge_back_ok_eq {a : Account} {x : Amount} {acc : Account}
    (heq : a.charge_back x = (acc, none)) :
    0 < x ∧ acc = { a with held := a.held - x, total := a.total - x,
                           locked := true } := by
  rcases Account.charge_back_spec a x with ⟨e, he⟩ | ⟨he, hx, _⟩ <;>
    rw [he] at heq
  · exact absurd (congrArg Prod.snd heq) (by simp)
  · exact ⟨hx, (congrArg Prod.fst heq).symm⟩

/-- The reachable-state invariant tying the history to the held balance:
every entry is keyed by its own transaction id, keys are distinct, every
recorded deposit has a positive amount, and `held` is exactly the sum of
the disputed deposits' amounts. -/
def HistInv (s : State) : Prop :=
  (∀ p ∈ s.transaction_history, (p.2).txId = p.1) ∧
  (s.transaction_history.map Prod.fst).Nodup ∧
  (∀ p ∈ s.transaction_history, ∀ m a d,
      p.2 = Transaction.Deposit m a d → 0 < a) ∧
  s.account.held = heldSum s.transaction_history

theorem wellKeyed_hinsert {h : History}
    (hw : ∀ p ∈ h, (p.2).txId = p.1) {k : Nat} {t : Transaction}
    (ht : t.txId = k) : ∀ p ∈ hinsert h k t, (p.2).txId = p.1 := by
  intro p hp
  rcases hinsert_mem hp with rfl | ⟨hmem, _⟩
  · exact ht
  · exact hw p hmem

theorem pos_hinsert {h : History}
    (hpos : ∀ p ∈ h, ∀ m a d, p.2 = Transaction.Deposit m a d → 0 < a)
    {k : Nat} {t : Transaction}
    (ht : ∀ m a d, t = Transaction.Deposit m a d → 0 < a) :
    ∀ p ∈ hinsert h k t, ∀ m a d, p.2 = Transaction.Deposit m a d → 0 < a
    := by
  intro p hp
  rcases hinsert_mem hp with rfl | ⟨hmem, _⟩
  · exact ht
  · exact hpos p hmem

theorem heldSum_hinsert_fresh {h : History} {k : Nat} {t : Transaction}
    (hf : hfind h k = none) :
    heldSum (hinsert h k t) = entryContrib t + heldSum h := by
  rw [hinsert, heldSum, hremove_of_hfind_none hf]

theorem heldSum_hinsert_found {h : History} {k : Nat} {t0 t : Transaction}
    (hn : (h.map Prod.fst).Nodup) (hf : hfind h k = some t0) :
    heldSum (hinsert h k t) = heldSum h - entryContrib t0 + entryContrib t
    := by
  rw [hinsert, heldSum, heldSum_hremove hn hf]
  ring

theorem HistInv_step {s : State} (inv : HistInv s) (t : Transaction)
    (hflag : depFlag t = false) : HistInv (t.apply s).1 := by
  obtain ⟨hw, hn, hp, hh⟩ := inv
  cases t with
  | Deposit md amount d =>
    have hd : d = false := hflag
    subst hd
    rw [applyDeposit_eq]
    split
    next => exact ⟨hw, hn, hp, hh⟩
    next hid =>
      split
      next => exact ⟨hw, hn, hp, hh⟩
      next hdup =>
        have hfresh : hfind s.transaction_history md.txId = none :=
          Option.not_isSome_iff_eq_none.1 (by simpa using hdup)
        split
        next acc e heq =>
          refine ⟨hw, hn, hp, ?_⟩
          have h2 := Account.deposit_held s.account amount
          rw [heq] at h2
          exact h2.trans hh
        next acc heq =>
          obtain ⟨hx, hacc⟩ := Account.deposit_ok_eq heq
          refine ⟨wellKeyed_hinsert hw rfl, hinsert_keys_nodup hn _ _, ?_, ?_⟩
          · refine pos_hinsert hp ?_
            intro m a dd hdd
            injection hdd with h1 h2 h3
            rw [← h2]; exact hx
          · show acc.held =
              heldSum (hinsert s.transaction_history md.txId
                (Transaction.Deposit md amount false))
            rw [heldSum_hinsert_fresh hfresh, hacc]
            show s.account.held =
              entryContrib (Transaction.Deposit md amount false) +
                heldSum s.transaction_history
            rw [hh]
            show heldSum s.transaction_history =
              0 + heldSum s.transaction_history
            ring
  | Withdrawal md amount =>
    rw [applyWithdrawal_eq]
    split
    next => exact ⟨hw, hn, hp, hh⟩
    next hid =>
      split
      next => exact ⟨hw, hn, hp, hh⟩
      next hdup =>
        have hfresh : hfind s.transaction_history md.txId = none :=
          Option.not_isSome_iff_eq_none.1 (by simpa using hdup)
        split
        next acc e heq =>
          refine ⟨hw, hn, hp, ?_⟩
          have h2 : (s.account.withdrawal amount).2 = some e := by rw [heq]
          have h3 := Account.withdrawal_err h2
          rw [heq] at h3
          have h4 : acc = s.account := h3
          rw [h4]
          exact hh
        next acc heq =>
          obtain ⟨hx, hacc⟩ := Account.withdrawal_ok_eq heq
          refine ⟨wellKeyed_hinsert hw rfl, hinsert_keys_nodup hn _ _, ?_, ?_⟩
          · refine pos_hinsert hp ?_
            intro m a dd hdd
            exact Transaction.noConfusion hdd
          · show acc.held =
              heldSum (hinsert s.transaction_history md.txId
                (Transaction.Withdrawal md amount))
            rw [heldSum_hinsert_fresh hfresh, hacc]
            show s.account.held =
              entryContrib (Transaction.Withdrawal md amount) +
                heldSum s.transaction_history
            rw [hh]
            show heldSum s.transaction_history =
              0 + heldSum s.transaction_history
            ring
  | Dispute md =>
    rw [applyDispute_eq]
    split
    next => exact ⟨hw, hn, hp, hh⟩
    next hid =>
      split
      next => exact ⟨hw, hn, hp, hh⟩
      next md1 amount isDisputed hfd =>
        split
        next => exact ⟨hw, hn, hp, hh⟩
        next hnd =>
          have hd0 : isDisputed = false := by simpa using hnd
          subst hd0
          have hkey : md1.txId = md.txId :=
            hw (md.txId, Transaction.Deposit md1 amount false)
              (hfind_mem hfd)
          have hfd1 : hfind s.transaction_history md1.txId =
              some (Transaction.Deposit md1 amount false) := by
            rw [hkey]; exact hfd
          split
          next acc e heq =>
            refine ⟨hw, hn, hp, ?_⟩
            have h2 : (s.account.dispute amount).2 = some e := by rw [heq]
            have h3 := Account.dispute_err h2
            rw [heq] at h3
            have h4 : acc = s.account := h3
            rw [h4]
            exact hh
          next acc heq =>
            obtain ⟨hx, hacc⟩ := Account.dispute_ok_eq heq
            refine ⟨wellKeyed_hinsert hw rfl, hinsert_keys_nodup hn _ _,
              ?_, ?_⟩
            · refine pos_hinsert hp ?_
              intro m a dd hdd
              injection hdd with h1 h2 h3
              rw [← h2]; exact hx
            · show acc.held =
                heldSum (hinsert s.transaction_history md1.txId
                  (Transaction.Deposit md1 amount true))
              rw [heldSum_hinsert_found hn hfd1, hacc]
              show s.account.held + amount =
                heldSum s.transaction_history -
                  entryContrib (Transaction.Deposit md1 amount false) +
                  entryContrib (Transaction.Deposit md1 amount true)
              rw [hh]
              show heldSum s.transaction_history + amount =
                heldSum s.transaction_history - 0 + amount
              ring
      next hne => exact ⟨hw, hn, hp, hh⟩
  | Resolve md =>
    rw [applyResolve_eq]
    split
    next => exact ⟨hw, hn, hp, hh⟩
    next hid =>
      split
      next => exact ⟨hw, hn, hp, hh⟩
      next md1 amount isDisputed hfd =>
        split
        next => exact ⟨hw, hn, hp, hh⟩
        next hnd =>
          have hd0 : isDisputed = true := by simpa using hnd
          subst hd0
          have hkey : md1.txId = md.txId :=
            hw (md.txId, Transaction.Deposit md1 amount true)
              (hfind_mem hfd)
          have hfd1 : hfind s.transaction_history md1.txId =
              some (Transaction.Deposit md1 amount true) := by
            rw [hkey]; exact hfd
          split
          next acc e heq =>
            refine ⟨hw, hn, hp, ?_⟩
            have h2 : (s.account.resolve amount).2 = some e := by rw [heq]
            have h3 := Account.resolve_err h2
            rw [heq] at h3
            have h4 : acc = s.account := h3
            rw [h4]
            exact hh
          next acc heq =>
            obtain ⟨hx, hacc⟩ := Account.resolve_ok_eq heq
            refine ⟨wellKeyed_hinsert hw rfl, hinsert_keys_nodup hn _ _,
              ?_, ?_⟩
            · refine pos_hinsert hp ?_
              intro m a dd hdd
              injection hdd with h1 h2 h3
              rw [← h2]
              exact hp (md.txId, Transaction.Deposit md1 amount true)
                (hfind_mem hfd) md1 amount true rfl
            · show acc.held =
                heldSum (hinsert s.transaction_history md1.txId
                  (Transaction.Deposit md1 amount false))
              rw [heldSum_hinsert_found hn hfd1, hacc]
              show s.account.held - amount =
                heldSum s.transaction_history -
                  entryContrib (Transaction.Deposit md1 amount true) +
                  entryContrib (Transaction.Deposit md1 amount false)
              rw [hh]
              show heldSum s.transaction_history - amount =
                heldSum s.transaction_history - amount + 0
              ring
      next hne => exact ⟨hw, hn, hp, hh⟩
  | ChargeBack md =>
    rw [applyChargeBack_eq]
    split
    next => exact ⟨hw, hn, hp, hh⟩
    next hid =>
      split
      next => exact ⟨hw, hn, hp, hh⟩
      next md1 amount isDisputed hfd =>
        split
        next => exact ⟨hw, hn, hp, hh⟩
        next hnd =>
          have hd0 : isDisputed = true := by simpa using hnd
          subst hd0
          have hkey : md1.txId = md.txId :=
            hw (md.txId, Transaction.Deposit md1 amount true)
              (hfind_mem hfd)
          have hfd1 : hfind s.transaction_history md1.txId =
              some (Transaction.Deposit md1 amount true) := by
            rw [hkey]; exact hfd
          split
          next acc e heq =>
            refine ⟨hw, hn, hp, ?_⟩
            have h2 : (s.account.charge_back amount).2 = some e := by
              rw [heq]
            have h3 := Account.charge_back_err h2
            rw [heq] at h3
            have h4 : acc = s.account := h3
            rw [h4]
            exact hh
          next acc heq =>
            obtain ⟨hx, hacc⟩ := Account.charge_back_ok_eq heq
            refine ⟨wellKeyed_hinsert hw rfl, hinsert_keys_nodup hn _ _,
              ?_, ?_⟩
            · refine pos_hinsert hp ?_
              intro m a dd hdd
              injection hdd with h1 h2 h3
              rw [← h2]
              exact hp (md.txId, Transaction.Deposit md1 amount true)
                (hfind_mem hfd) md1 amount true rfl
            · show acc.held =
                heldSum (hinsert s.transaction_history md1.txId
                  (Transaction.Deposit md1 amount false))
              rw [heldSum_hinsert_found hn hfd1, hacc]
              show s.account.held - amount =
                heldSum s.transaction_history -
                  entryContrib (Transaction.Deposit md1 amount true) +
                  entryContrib (Transaction.Deposit md1 amount false)
              rw [hh]
              show heldSum s.transaction_history - amount =
                heldSum s.transaction_history - amount + 0
              ring
      next hne => exact ⟨hw, hn, hp, hh⟩

theorem HistInv_new (id : Nat) : HistInv (State.new id) := by
  refine ⟨?_, ?_, ?_, rfl⟩ <;> simp [State.new]

theorem HistInv_applyTxs {s : State} (inv : HistInv s)
    {txs : List Transaction} (hf : ∀ t ∈ txs, depFlag t = false) :
    HistInv (applyTxs s txs) := by
  induction txs generalizing s with
  | nil => exact inv
  | cons t rest ih =>
    show HistInv (applyTxs ((t.apply s).1) rest)
    exact ih (HistInv_step inv t (hf t (by simp)))
      (fun u hu => hf u (by simp [hu]))

/-- A locked account rejects every operation and is left exactly as it
was. -/
theorem runOp_locked {s : State} (h : s.account.locked = true) (op : Op) :
    (runOp s op).account = s.account := by
  cases op with
  | tx t => rw [runOp, (apply_locked_fail h t).1]
  | deposit a => exact (Account.deposit_locked_fail h a).1
  | withdrawal a => exact (Account.withdrawal_locked_fail h a).1
  | dispute a => exact (Account.dispute_locked_fail h a).1
  | resolve a => exact (Account.resolve_locked_fail h a).1
  | chargeBack a => exact (Account.charge_back_locked_fail h a).1

theorem runOps_locked {s : State} (h : s.account.locked = true)
    (ops : List Op) : (runOps s ops).account = s.account := by
  induction ops generalizing s with
  | nil => rfl
  | cons op rest ih =>
    show (runOps (runOp s op) rest).account = s.account
    have h1 := runOp_locked h op
    rw [ih (by rw [h1]; exact h), h1]

theorem runOp_nonneg {s : State} (h : s.account.nonneg) (op : Op) :
    ((runOp s op).account).nonneg := by
  cases op with
  | tx t => exact apply_account_nonneg h t
  | deposit a => exact Account.deposit_nonneg h a
  | withdrawal a => exact Account.withdrawal_nonneg h a
  | dispute a => exact Account.dispute_nonneg h a
  | resolve a => exact Account.resolve_nonneg h a
  | chargeBack a => exact Account.charge_back_nonneg h a

theorem runOps_nonneg {s : State} (h : s.account.nonneg) (ops : List Op) :
    ((runOps s ops).account).nonneg := by
  induction ops generalizing s with
  | nil => exact h
  | cons op rest ih =>
    show ((runOps (runOp s op) rest).account).nonneg
    exact ih (runOp_nonneg h op)

theorem applyTrace_cons_ok {s : State} {t : Transaction} {s1 : State}
    (h : t.apply s = (s1, none)) (rest : List Transaction) :
    applyTrace s (t :: rest) = t :: applyTrace s1 rest := by
  rw [applyTrace, h]

theorem applyTrace_cons_err {s : State} {t : Transaction} {s1 : State}
    {e : TxError} (h : t.apply s = (s1, some e)) (rest : List Transaction) :
    applyTrace s (t :: rest) = applyTrace s1 rest := by
  rw [applyTrace, h]

theorem engineTrace_cons_ok {E : Engine} {t : Transaction} {E1 : Engine}
    (h : engineApply E t = (E1, none)) (rest : List Transaction) :
    engineTrace E (t :: rest) = t :: engineTrace E1 rest := by
  rw [engineTrace, h]

theorem engineTrace_cons_err {E : Engine} {t : Transaction} {E1 : Engine}
    {e : TxError} (h : engineApply E t = (E1, some e))
    (rest : List Transaction) :
    engineTrace E (t :: rest) = engineTrace E1 rest := by
  rw [engineTrace, h]

/-- The engine's successes addressed to a client `c` are exactly the
successes of `c`'s own sequential run: the dispatcher only routes, the
per-account `Handler` only touches its own entry. -/
theorem engineTrace_client (txs : List Transaction) :
    ∀ (E : Engine) (c : Nat),
      (engineTrace E txs).filter (fun u => u.client == c) =
      applyTrace (E c) (txs.filter (fun u => u.client == c)) := by
  induction txs with
  | nil => intro E c; rfl
  | cons t rest ih =>
    intro E c
    rcases hq : t.apply (E t.client) with ⟨s1, r⟩
    have hE : engineApply E t =
        (fun c1 => if c1 = t.client then s1 else E c1, r) := by
      rw [engineApply, hq]
    cases r with
    | none =>
      rw [engineTrace_cons_ok hE rest]
      by_cases hc : t.client = c
      · rw [List.filter_cons_of_pos (by simp [hc]),
          List.filter_cons_of_pos (by simp [hc])]
        have hq2 : t.apply (E c) = (s1, none) := by rw [← hc]; exact hq
        rw [applyTrace_cons_ok hq2, ih _ c, if_pos hc.symm]
      · rw [List.filter_cons_of_neg (by simp [hc]),
          List.filter_cons_of_neg (by simp [hc])]
        rw [ih _ c, if_neg (fun h => hc h.symm)]
    | some e =>
      rw [engineTrace_cons_err hE rest]
      by_cases hc : t.client = c
      · rw [List.filter_cons_of_pos (by simp [hc])]
        have hq2 : t.apply (E c) = (s1, some e) := by rw [← hc]; exact hq
        rw [applyTrace_cons_err hq2, ih _ c, if_pos hc.symm]
      · rw [List.filter_cons_of_neg (by simp [hc])]
        rw [ih _ c, if_neg (fun h => hc h.symm)]

/-! Claim theorems. -/

/-- C7: from a fresh account 1, applying a deposit of 3.0 (tx id 1), then
Dispute(1), then ChargeBack(1) ends with available = 0, held = 0,
total = 0, locked = true, and the history entry of tx id 1 is a deposit
with `disputed = false`. -/
theorem c7_dispute_chargeback_scenario :
    (applyTxs (State.new 1)
      [Transaction.Deposit ⟨1, 1⟩ 3 false, Transaction.Dispute ⟨1, 1⟩,
       Transaction.ChargeBack ⟨1, 1⟩]).account =
      { id := 1, available := 0, held := 0, total := 0, locked := true } ∧
    hfind (applyTxs (State.new 1)
      [Transaction.Deposit ⟨1, 1⟩ 3 false, Transaction.Dispute ⟨1, 1⟩,
       Transaction.ChargeBack ⟨1, 1⟩]).transaction_history 1 =
      some (Transaction.Deposit ⟨1, 1⟩ 3 false) := by
  decide

/-- C1 (failing evaluation): `Account::deposit` assigns `available` before
the checked add on `total`, so after deposit 1, deposit MAX-1, dispute tx 1,
a further deposit of 1 fails with Overflow having already increased
`available`; at that observable point available + held ≠ total. -/
theorem c1_deposit_overflow_breaks_sum :
    ((Transaction.Deposit ⟨3, 1⟩ 1 false).apply (applyTxs (State.new 1)
        [Transaction.Deposit ⟨1, 1⟩ 1 false,
         Transaction.Deposit ⟨2, 1⟩ (amountMax - 1) false,
         Transaction.Dispute ⟨1, 1⟩])).2 =
      some (TxError.Account AccountError.Overflow) ∧
    (applyTxs (State.new 1)
        [Transaction.Deposit ⟨1, 1⟩ 1 false,
         Transaction.Deposit ⟨2, 1⟩ (amountMax - 1) false,
         Transaction.Dispute ⟨1, 1⟩,
         Transaction.Deposit ⟨3, 1⟩ 1 false]).account.available +
      (applyTxs (State.new 1)
        [Transaction.Deposit ⟨1, 1⟩ 1 false,
         Transaction.Deposit ⟨2, 1⟩ (amountMax - 1) false,
         Transaction.Dispute ⟨1, 1⟩,
         Transaction.Deposit ⟨3, 1⟩ 1 false]).account.held ≠
      (applyTxs (State.new 1)
        [Transaction.Deposit ⟨1, 1⟩ 1 false,
         Transaction.Deposit ⟨2, 1⟩ (amountMax - 1) false,
         Transaction.Dispute ⟨1, 1⟩,
         Transaction.Deposit ⟨3, 1⟩ 1 false]).account.total := by
  decide

/-- C2: once `locked` is true, every Account mutator and every
`Transaction::apply` on that account fails and leaves the account exactly
as it was; over any sequence of further operations the account — its
`locked` flag included — never changes, so nothing unlocks it. -/
theorem c2_locked_is_terminal :
    (∀ (a : Account) (x : Amount), a.locked = true →
      ((a.deposit x).1 = a ∧ (a.deposit x).2.isSome) ∧
      ((a.withdrawal x).1 = a ∧ (a.withdrawal x).2.isSome) ∧
      ((a.dispute x).1 = a ∧ (a.dispute x).2.isSome) ∧
      ((a.resolve x).1 = a ∧ (a.resolve x).2.isSome) ∧
      ((a.charge_back x).1 = a ∧ (a.charge_back x).2.isSome)) ∧
    (∀ (s : State) (t : Transaction), s.account.locked = true →
      (t.apply s).1 = s ∧ (t.apply s).2.isSome) ∧
    (∀ (s : State) (ops : List Op), s.account.locked = true →
      (runOps s ops).account = s.account) :=
  ⟨fun _ x h =>
    ⟨Account.deposit_locked_fail h x, Account.withdrawal_locked_fail h x,
     Account.dispute_locked_fail h x, Account.resolve_locked_fail h x,
     Account.charge_back_locked_fail h x⟩,
   fun _ t h => apply_locked_fail h t,
   fun _ ops h => runOps_locked h ops⟩

/-- C2 witness: a concrete locked account rejects a deposit unchanged, a
concrete locked state rejects a whole transaction, and a sequence of
operations leaves it untouched. -/
theorem c2_locked_is_terminal_witness :
    ((({ id := 1, available := 2, held := 0, total := 2,
         locked := true } : Account).deposit 5).1 =
      { id := 1, available := 2, held := 0, total := 2, locked := true } ∧
     (({ id := 1, available := 2, held := 0, total := 2,
         locked := true } : Account).deposit 5).2.isSome) ∧
    (runOps
      { account := { id := 1, available := 2, held := 0, total := 2,
                     locked := true },
        transaction_history := [] }
      [Op.deposit 5, Op.tx (Transaction.Withdrawal ⟨1, 1⟩ 1),
       Op.chargeBack 1]).account =
      { id := 1, available := 2, held := 0, total := 2, locked := true } :=
  ⟨(c2_locked_is_terminal.1
      { id := 1, available := 2, held := 0, total := 2, locked := true } 5
      (by decide)).1,
   c2_locked_is_terminal.2.2
      { account := { id := 1, available := 2, held := 0, total := 2,
                     locked := true },
        transaction_history := [] }
      [Op.deposit 5, Op.tx (Transaction.Withdrawal ⟨1, 1⟩ 1),
       Op.chargeBack 1]
      (by decide)⟩

/-- C8: every single operation — a `Transaction::apply` or a direct Account
mutator, succeeding or failing — preserves nonnegativity of available, held
and total, and along every operation sequence from a fresh account all
three stay nonnegative. -/
theorem c8_balances_nonneg :
    (∀ (s : State) (op : Op), s.account.nonneg →
      ((runOp s op).account).nonneg) ∧
    (∀ (id : Nat) (ops : List Op),
      ((runOps (State.new id) ops).account).nonneg) :=
  ⟨fun _ op h => runOp_nonneg h op,
   fun _ ops => runOps_nonneg ⟨le_refl 0, le_refl 0, le_refl 0⟩ ops⟩

/-- C8 witness: one concrete failing withdrawal keeps a concrete account
nonnegative. -/
theorem c8_balances_nonneg_witness :
    ((runOp
      { account := { id := 1, available := 2, held := 0, total := 2,
                     locked := false },
        transaction_history := [] }
      (Op.tx (Transaction.Withdrawal ⟨1, 1⟩ 7))).account).nonneg :=
  c8_balances_nonneg.1
    { account := { id := 1, available := 2, held := 0, total := 2,
                   locked := false },
      transaction_history := [] }
    (Op.tx (Transaction.Withdrawal ⟨1, 1⟩ 7))
    ⟨by decide, by decide, by decide⟩

/-- C10: whenever `Transaction::apply` returns an error the transaction
history is exactly the mapping it was before the call. -/
theorem c10_error_leaves_history :
    ∀ (t : Transaction) (s : State) (e : TxError),
      (t.apply s).2 = some e →
      (t.apply s).1.transaction_history = s.transaction_history := by
  intro t s e h
  rcases apply_shape t s with hs | ⟨h2, _⟩
  · exact hs
  · rw [h2] at h
    exact Option.noConfusion h

/-- C10 witness: a concrete failing withdrawal leaves the (empty) history
unchanged. -/
theorem c10_error_leaves_history_witness :
    ((Transaction.Withdrawal ⟨1, 1⟩ 5).apply
      (State.new 1)).1.transaction_history =
      (State.new 1).transaction_history :=
  c10_error_leaves_history (Transaction.Withdrawal ⟨1, 1⟩ 5) (State.new 1)
    (TxError.Account AccountError.InsufficientFunds) (by decide)

/-- C3 counterexample: two deposits carrying the *same* transaction id 1
but addressed to different clients both apply successfully, so across all
accounts of the system a TransactionId can occur twice among the
successfully applied deposits; uniqueness is only enforced per account. -/
theorem c3_counterexample_cross_account_duplicate :
    ¬ (((engineTrace engineInit
        [Transaction.Deposit ⟨1, 1⟩ 5 false,
         Transaction.Deposit ⟨1, 2⟩ 5 false]).filterMap depWdId).Nodup) := by
  decide

/-- C3 amended: after any input stream, each TransactionId occurs at most
once among the successfully applied deposits and withdrawals *of any one
account* — both stated on the engine (successes routed to a client `c`)
and on a single account state's run. -/
theorem c3_txid_unique_per_account :
    ∀ (txs : List Transaction) (c : Nat),
      ((((engineTrace engineInit txs).filter
          (fun u => u.client == c)).filterMap depWdId).Nodup) ∧
      ∀ (s : State), ((applyTrace s txs).filterMap depWdId).Nodup := by
  intro txs c
  refine ⟨?_, fun s => applyTrace_nodup s txs⟩
  rw [engineTrace_client]
  exact applyTrace_nodup _ _

/-- C6: the withdrawal error taxonomy, read sequentially as in the source:
`InvalidInput` for a nonpositive amount, then `Locked`, then `Overflow` when
the checked subtraction on `available` fails, `InsufficientFunds` when
`available - a < 0`, then likewise for `total`; every error leaves the
account exactly as it was, and success decreases `available` and `total`
by the amount. -/
theorem c6_withdrawal_contract (acc : Account) (x : Amount) :
    (x ≤ 0 → acc.withdrawal x = (acc, some AccountError.InvalidInput)) ∧
    (0 < x → acc.locked = true →
      acc.withdrawal x = (acc, some AccountError.Locked)) ∧
    (0 < x → acc.locked = false → checkedSub acc.available x = none →
      acc.withdrawal x = (acc, some AccountError.Overflow)) ∧
    (0 < x → acc.locked = false →
      ∀ d, checkedSub acc.available x = some d →
        (d < 0 →
          acc.withdrawal x = (acc, some AccountError.InsufficientFunds)) ∧
        (0 ≤ d → checkedSub acc.total x = none →
          acc.withdrawal x = (acc, some AccountError.Overflow)) ∧
        (0 ≤ d → ∀ d2, checkedSub acc.total x = some d2 → d2 < 0 →
          acc.withdrawal x = (acc, some AccountError.InsufficientFunds))) ∧
    (∀ e, (acc.withdrawal x).2 = some e → (acc.withdrawal x).1 = acc) ∧
    ((acc.withdrawal x).2 = none →
      acc.withdrawal x =
        ({ acc with available := acc.available - x,
                    total := acc.total - x }, none)) := by
  refine ⟨?_, ?_, ?_, ?_, ?_, ?_⟩
  · intro hx
    unfold Account.withdrawal
    rw [if_pos hx]
  · intro hx hl
    unfold Account.withdrawal
    rw [if_neg (not_le.2 hx), if_pos hl]
  · intro hx hl hcs
    unfold Account.withdrawal
    rw [if_neg (not_le.2 hx), if_neg (by simp [hl]), hcs]
  · intro hx hl d hd
    refine ⟨?_, ?_, ?_⟩
    · intro hdlt
      unfold Account.withdrawal
      rw [if_neg (not_le.2 hx), if_neg (by simp [hl]), hd]
      dsimp only
      rw [if_pos hdlt]
    · intro hdge hcs
      unfold Account.withdrawal
      rw [if_neg (not_le.2 hx), if_neg (by simp [hl]), hd]
      dsimp only
      rw [if_neg (not_lt.2 hdge), hcs]
    · intro hdge d2 hd2 hlt2
      unfold Account.withdrawal
      rw [if_neg (not_le.2 hx), if_neg (by simp [hl]), hd]
      dsimp only
      rw [if_neg (not_lt.2 hdge), hd2]
      dsimp only
      rw [if_pos hlt2]
  · intro e h
    exact Account.withdrawal_err h
  · intro h
    rcases Account.withdrawal_spec acc x with ⟨e, he⟩ | ⟨he, _⟩
    · rw [he] at h
      exact Option.noConfusion h
    · exact he

/-- C6 witness: the invalid-input, locked, insufficient-funds and success
branches of the withdrawal contract at concrete accounts. -/
theorem c6_withdrawal_contract_witness :
    (({ id := 1, available := 5, held := 0, total := 5,
        locked := false } : Account).withdrawal (-1) =
      ({ id := 1, available := 5, held := 0, total := 5, locked := false },
       some AccountError.InvalidInput)) ∧
    (({ id := 1, available := 5, held := 0, total := 5,
        locked := true } : Account).withdrawal 2 =
      ({ id := 1, available := 5, held := 0, total := 5, locked := true },
       some AccountError.Locked)) ∧
    (({ id := 1, available := 5, held := 0, total := 5,
        locked := false } : Account).withdrawal 7 =
      ({ id := 1, available := 5, held := 0, total := 5, locked := false },
       some AccountError.InsufficientFunds)) ∧
    (({ id := 1, available := 5, held := 0, total := 5,
        locked := false } : Account).withdrawal 2 =
      ({ id := 1, available := 3, held := 0, total := 3, locked := false },
       none)) :=
  ⟨(c6_withdrawal_contract
      { id := 1, available := 5, held := 0, total := 5, locked := false }
      (-1)).1 (by decide),
   (c6_withdrawal_contract
      { id := 1, available := 5, held := 0, total := 5, locked := true }
      2).2.1 (by decide) (by decide),
   ((c6_withdrawal_contract
      { id := 1, available := 5, held := 0, total := 5, locked := false }
      7).2.2.2.1 (by decide) (by decide) (-2) (by decide)).1 (by decide),
   (c6_withdrawal_contract
      { id := 1, available := 5, held := 0, total := 5, locked := false }
      2).2.2.2.2.2 (by decide)⟩

/-- C5 counterexample: on a state whose history stores a deposit under key
5 although the deposit's own metadata carries tx id 7, `Dispute(5)`
*succeeds* yet the referenced entry (key 5) still has `disputed = false`:
the code re-inserts under the stored metadata's id, not the looked-up key.
This refutes the claim's success clause as stated over every state. -/
theorem c5_counterexample_stored_id :
    ((Transaction.Dispute ⟨5, 1⟩).apply
      { account := { id := 1, available := 10, held := 0, total := 10,
                     locked := false },
        transaction_history :=
          [(5, Transaction.Deposit ⟨7, 1⟩ 10 false)] }).2 = none ∧
    hfind ((Transaction.Dispute ⟨5, 1⟩).apply
      { account := { id := 1, available := 10, held := 0, total := 10,
                     locked := false },
        transaction_history :=
          [(5, Transaction.Deposit ⟨7, 1⟩ 10 false)] }).1.transaction_history
      5 = some (Transaction.Deposit ⟨7, 1⟩ 10 false) := by
  decide

/-- C5 amended: with a matching account id, `apply` of a dispute returns
the error `Dispute` exactly when the tx id is absent, the referenced entry
is not a deposit, or the referenced deposit is already disputed; on success
the looked-up undisputed deposit is re-inserted with `disputed = true`
under its *stored* metadata tx id — in particular at the referenced id
whenever the stored id equals it, as in every history built by `apply` —
and the dispute mutator has moved its amount from available to held. -/
theorem c5_dispute_contract (s : State) (md : TransactionMetadata)
    (hid : s.account.id = md.clientId) :
    (((Transaction.Dispute md).apply s).2 = some TxError.Dispute ↔
      hfind s.transaction_history md.txId = none ∨
      (∃ t, hfind s.transaction_history md.txId = some t ∧
        t.isDeposit = false) ∨
      (∃ m a, hfind s.transaction_history md.txId =
        some (Transaction.Deposit m a true))) ∧
    (∀ s1, (Transaction.Dispute md).apply s = (s1, none) →
      ∃ m a acc1,
        hfind s.transaction_history md.txId =
          some (Transaction.Deposit m a false) ∧
        s.account.dispute a = (acc1, none) ∧
        acc1.available = s.account.available - a ∧
        acc1.held = s.account.held + a ∧
        s1 = { account := acc1,
               transaction_history := hinsert s.transaction_history m.txId
                 (Transaction.Deposit m a true) } ∧
        (m.txId = md.txId →
          hfind s1.transaction_history md.txId =
            some (Transaction.Deposit m a true))) := by
  rw [applyDispute_eq, if_neg (fun h => h hid)]
  cases hfd : hfind s.transaction_history md.txId with
  | none =>
    constructor
    · exact iff_of_true rfl (Or.inl rfl)
    · intro s1 h
      exact Option.noConfusion (congrArg Prod.snd h)
  | some t0 =>
    cases t0 with
    | Deposit m1 a1 dd =>
      cases dd with
      | true =>
        constructor
        · exact iff_of_true rfl (Or.inr (Or.inr ⟨m1, a1, rfl⟩))
        · intro s1 h
          exact Option.noConfusion (congrArg Prod.snd h)
      | false =>
        dsimp only
        rw [if_neg Bool.false_ne_true]
        rcases hq : s.account.dispute a1 with ⟨acc, r⟩
        cases r with
        | some e =>
          constructor
          · refine iff_of_false (by simp) ?_
            rintro (h1 | ⟨t, ht, hdep⟩ | ⟨m, a, hma⟩)
            · exact Option.noConfusion h1
            · rw [← Option.some_inj.1 ht] at hdep
              exact Bool.noConfusion hdep
            · injection Option.some_inj.1 hma with e1 e2 e3
              exact Bool.noConfusion e3
          · intro s1 h
            exact Option.noConfusion (congrArg Prod.snd h)
        | none =>
          constructor
          · refine iff_of_false (by simp) ?_
            rintro (h1 | ⟨t, ht, hdep⟩ | ⟨m, a, hma⟩)
            · exact Option.noConfusion h1
            · rw [← Option.some_inj.1 ht] at hdep
              exact Bool.noConfusion hdep
            · injection Option.some_inj.1 hma with e1 e2 e3
              exact Bool.noConfusion e3
          · intro s1 h
            obtain ⟨hx, hacc⟩ := Account.dispute_ok_eq hq
            have hs1 :
                ({ account := acc,
                   transaction_history :=
                     hinsert s.transaction_history m1.txId
                       (Transaction.Deposit m1 a1 true) } : State) = s1 :=
              congrArg Prod.fst h
            refine ⟨m1, a1, acc, rfl, hq, by rw [hacc], by rw [hacc],
              hs1.symm, ?_⟩
            intro hkey
            rw [← hs1]
            show hfind (hinsert s.transaction_history m1.txId
              (Transaction.Deposit m1 a1 true)) md.txId = _
            rw [← hkey, hfind_hinsert_self]
    | Withdrawal m1 a1 =>
      constructor
      · exact iff_of_true rfl (Or.inr (Or.inl ⟨Transaction.Withdrawal m1 a1,
          rfl, rfl⟩))
      · intro s1 h
        exact Option.noConfusion (congrArg Prod.snd h)
    | Dispute m1 =>
      constructor
      · exact iff_of_true rfl (Or.inr (Or.inl ⟨Transaction.Dispute m1,
          rfl, rfl⟩))
      · intro s1 h
        exact Option.noConfusion (congrArg Prod.snd h)
    | Resolve m1 =>
      constructor
      · exact iff_of_true rfl (Or.inr (Or.inl ⟨Transaction.Resolve m1,
          rfl, rfl⟩))
      · intro s1 h
        exact Option.noConfusion (congrArg Prod.snd h)
    | ChargeBack m1 =>
      constructor
      · exact iff_of_true rfl (Or.inr (Or.inl ⟨Transaction.ChargeBack m1,
          rfl, rfl⟩))
      · intro s1 h
        exact Option.noConfusion (congrArg Prod.snd h)

/-- C5 witness: a dispute whose tx id is absent from a concrete history
yields the `Dispute` error. -/
theorem c5_dispute_contract_witness :
    ((Transaction.Dispute ⟨9, 1⟩).apply
      { account := { id := 1, available := 10, held := 0, total := 10,
                     locked := false },
        transaction_history :=
          [(4, Transaction.Deposit ⟨4, 1⟩ 10 false)] }).2 =
      some TxError.Dispute :=
  (c5_dispute_contract
    { account := { id := 1, available := 10, held := 0, total := 10,
                   locked := false },
      transaction_history := [(4, Transaction.Deposit ⟨4, 1⟩ 10 false)] }
    ⟨9, 1⟩ (by decide)).1.mpr (Or.inl (by decide))

/-- C4: for a state holding a successfully applied undisputed deposit D of
amount a on an unlocked account, if Dispute(D.id) and then Resolve(D.id)
both succeed, the account's fields are exactly as before and D's entry is
back to `disputed = false`. -/
theorem c4_dispute_resolve_roundtrip (s : State) (m : TransactionMetadata)
    (a : Amount) (s1 s2 : State)
    (hf : hfind s.transaction_history m.txId =
      some (Transaction.Deposit m a false))
    (_hl : s.account.locked = false)
    (h1 : (Transaction.Dispute ⟨m.txId, s.account.id⟩).apply s = (s1, none))
    (h2 : (Transaction.Resolve ⟨m.txId, s.account.id⟩).apply s1 = (s2, none)) :
    s2.account = s.account ∧
    hfind s2.transaction_history m.txId =
      some (Transaction.Deposit m a false) := by
  rw [applyDispute_eq] at h1
  dsimp only at h1
  rw [if_neg (fun hh => hh rfl), hf] at h1
  dsimp only at h1
  rw [if_neg Bool.false_ne_true] at h1
  rcases hq : s.account.dispute a with ⟨acc, r⟩
  cases r with
  | some e =>
    rw [hq] at h1
    exact absurd (congrArg Prod.snd h1) (by simp)
  | none =>
    rw [hq] at h1
    have hs1 := congrArg Prod.fst h1
    dsimp only at hs1
    obtain ⟨hx, hacc⟩ := Account.dispute_ok_eq hq
    rw [← hs1] at h2
    rw [applyResolve_eq] at h2
    dsimp only at h2
    rw [if_neg (fun hh => hh (by rw [hacc])), hfind_hinsert_self] at h2
    dsimp only at h2
    rw [if_neg (fun hh => hh rfl)] at h2
    rcases hq2 : acc.resolve a with ⟨acc2, r2⟩
    cases r2 with
    | some e =>
      rw [hq2] at h2
      exact absurd (congrArg Prod.snd h2) (by simp)
    | none =>
      rw [hq2] at h2
      have hs2 := congrArg Prod.fst h2
      dsimp only at hs2
      obtain ⟨hx2, hacc2⟩ := Account.resolve_ok_eq hq2
      constructor
      · rw [← hs2]
        show acc2 = s.account
        rw [hacc2, hacc]
        show ({ s.account with
            available := s.account.available - a + a,
            held := s.account.held + a - a } : Account) = s.account
        have e1 : s.account.available - a + a = s.account.available := by
          ring
        have e2 : s.account.held + a - a = s.account.held := by ring
        rw [e1, e2]
      · rw [← hs2]
        show hfind (hinsert (hinsert s.transaction_history m.txId
            (Transaction.Deposit m a true)) m.txId
            (Transaction.Deposit m a false)) m.txId =
          some (Transaction.Deposit m a false)
        rw [hfind_hinsert_self]

/-- C4 witness: the dispute/resolve round-trip on a concrete deposit of 10
restores the concrete account and entry. -/
theorem c4_dispute_resolve_roundtrip_witness :
    ({ account := { id := 1, available := 10, held := 0, total := 10,
                    locked := false },
       transaction_history :=
         [(4, Transaction.Deposit ⟨4, 1⟩ 10 false)] } : State).account =
      { id := 1, available := 10, held := 0, total := 10, locked := false } ∧
    hfind [(4, Transaction.Deposit ⟨4, 1⟩ 10 false)] 4 =
      some (Transaction.Deposit ⟨4, 1⟩ 10 false) := by
  have h := c4_dispute_resolve_roundtrip
    { account := { id := 1, available := 10, held := 0, total := 10,
                   locked := false },
      transaction_history := [(4, Transaction.Deposit ⟨4, 1⟩ 10 false)] }
    ⟨4, 1⟩ 10
    { account := { id := 1, available := 0, held := 10, total := 10,
                   locked := false },
      transaction_history := [(4, Transaction.Deposit ⟨4, 1⟩ 10 true)] }
    { account := { id := 1, available := 10, held := 0, total := 10,
                   locked := false },
      transaction_history := [(4, Transaction.Deposit ⟨4, 1⟩ 10 false)] }
    (by decide) (by decide) (by decide) (by decide)
  exact h

theorem Account.resolve_not_insufficient {acc : Account} {x : Amount}
    (h : x ≤ acc.held) :
    (acc.resolve x).2 ≠ some AccountError.InsufficientFunds := by
  unfold Account.resolve
  split
  next => simp
  next =>
    split
    next => simp
    next =>
      split
      next => simp
      next d hd =>
        split
        next hlt =>
          exfalso
          have h2 := checkedSub_some hd
          linarith
        next =>
          split
          next => simp
          next => simp

/-- C9: along every stream of transactions whose deposits enter (as the
record conversion guarantees) with `disputed = false`, the held balance
equals the sum of the amounts of the disputed deposits in the history; so
for any disputed deposit of amount a in a reachable state, a ≤ held, the
`InsufficientFunds` branch of `Account::resolve` cannot be taken, and the
held checked subtraction of `Account::charge_back` cannot go negative. -/
theorem c9_held_is_disputed_sum (id : Nat) (txs : List Transaction)
    (hf : ∀ t ∈ txs, depFlag t = false) :
    (applyTxs (State.new id) txs).account.held =
      heldSum (applyTxs (State.new id) txs).transaction_history ∧
    ∀ k m a,
      hfind (applyTxs (State.new id) txs).transaction_history k =
        some (Transaction.Deposit m a true) →
      a ≤ (applyTxs (State.new id) txs).account.held ∧
      ((applyTxs (State.new id) txs).account.resolve a).2 ≠
        some AccountError.InsufficientFunds ∧
      ∀ d, checkedSub (applyTxs (State.new id) txs).account.held a =
          some d → 0 ≤ d := by
  obtain ⟨hw, hn, hp, hh⟩ := HistInv_applyTxs (HistInv_new id) hf
  refine ⟨hh, ?_⟩
  intro k m a hfk
  have hle : a ≤ (applyTxs (State.new id) txs).account.held := by
    have h2 := contrib_le_heldSum hp hfk
    rw [hh]
    exact h2
  refine ⟨hle, Account.resolve_not_insufficient hle, ?_⟩
  intro d hd
  rw [checkedSub_some hd]
  linarith

/-- C9 witness: after a concrete deposit of 5 and its dispute, held = 5 =
the disputed sum, and the resolve/charge-back underflow branches are
closed for that deposit. -/
theorem c9_held_is_disputed_sum_witness :
    (applyTxs (State.new 1)
      [Transaction.Deposit ⟨1, 1⟩ 5 false,
       Transaction.Dispute ⟨1, 1⟩]).account.held =
      heldSum (applyTxs (State.new 1)
        [Transaction.Deposit ⟨1, 1⟩ 5 false,
         Transaction.Dispute ⟨1, 1⟩]).transaction_history ∧
    (5 ≤ (applyTxs (State.new 1)
        [Transaction.Deposit ⟨1, 1⟩ 5 false,
         Transaction.Dispute ⟨1, 1⟩]).account.held ∧
     ((applyTxs (State.new 1)
        [Transaction.Deposit ⟨1, 1⟩ 5 false,
         Transaction.Dispute ⟨1, 1⟩]).account.resolve 5).2 ≠
        some AccountError.InsufficientFunds ∧
     ∀ d, checkedSub (applyTxs (State.new 1)
        [Transaction.Deposit ⟨1, 1⟩ 5 false,
         Transaction.Dispute ⟨1, 1⟩]).account.held 5 = some d → 0 ≤ d) :=
  ⟨(c9_held_is_disputed_sum 1
      [Transaction.Deposit ⟨1, 1⟩ 5 false, Transaction.Dispute ⟨1, 1⟩]
      (by decide)).1,
   (c9_held_is_disputed_sum 1
      [Transaction.Deposit ⟨1, 1⟩ 5 false, Transaction.Dispute ⟨1, 1⟩]
      (by decide)).2 1 ⟨1, 1⟩ 5 (by decide)⟩

end TxProc
